import Mathlib

/-!
Shallow embedding of the crawl engine of the `web-scraping_al.to.leg.br`
repository (files `scraper.py` and `legislative_assembly.py`).

Python dicts preserve insertion order, so every dict in the source is
modelled as an association list (`alGet` is `dict.get`, `alSet` is
`dict[k] = v`: it replaces the value of an existing key in place and
appends a fresh key at the end).  Machine-level concerns do not arise:
all data are strings and lists of strings.

The HTTP transport (`Scraper.fetch` + `Scraper.parse`, backed by
`requests` and BeautifulSoup) is an external collaborator; it is
modelled as an `Oracle`: a function from the request issued to either a
parsed document (`Soup`) or an error string (one of the exceptions
`Scraper.fetch` re-raises).  A `Soup` carries exactly the projections
the scraper queries on a parsed page: the `value` attributes of the
three `select ... option` groups, the `td a` anchors, and the
`h2.my-2` headings together with each heading's next-sibling table's
anchors.
-/

namespace AlTo

/-- Association-list lookup: `dict.get(k)` / `k in dict`.  First match wins
(keys are unique in every list we build, as in a Python dict). -/
def alGet {α : Type} (m : List (String × α)) (k : String) : Option α :=
  match m with
  | [] => none
  | (k', v) :: rest => if k' = k then some v else alGet rest k

/-- Association-list update: `dict[k] = v`.  Replaces the value of an
existing key in place, otherwise appends the key at the end — exactly the
insertion-order behaviour of a Python dict. -/
def alSet {α : Type} (m : List (String × α)) (k : String) (v : α) : List (String × α) :=
  match m with
  | [] => [(k, v)]
  | (k', v') :: rest => if k' = k then (k, v) :: rest else (k', v') :: alSet rest k v

/-- The keys of an association list, in insertion order (`dict.keys()`). -/
def alKeys {α : Type} (m : List (String × α)) : List String :=
  m.map Prod.fst

/-- Truthiness of a BeautifulSoup string/attribute value: `None` and the
empty string are falsy (`if not a.get(...)`, `if not h2.string`). -/
def pyTruthy : Option String → Bool
  | none => false
  | some s => !s.isEmpty

/-- Python `str(x)` on a value that is either a string or `None`
(`str(a.string)`, `str(h2.string)`). -/
def pyStr : Option String → String
  | none => "None"
  | some s => s

/-- One `<a>` element as the scraper reads it: `a.get('href')` and
`a.string`. -/
structure Anchor where
  href : Option String
  astring : Option String
deriving Repr, DecidableEq

/-- One `<h2 class="my-2">` heading: `h2.string`, and the `td a` anchors of
`h2.find_next_sibling('table')` when that table exists. -/
structure Heading where
  hstring : Option String
  table : Option (List Anchor)
deriving Repr, DecidableEq

/-- A parsed page (`self.soup`), reduced to the selector results the
scraper actually queries. -/
structure Soup where
  yearOptions : List String
  monthOptions : List String
  politicianOptions : List String
  tdAnchors : List Anchor
  headings : List Heading
deriving Repr, DecidableEq

/-- One recorded report row: `{'description': ..., 'href': ...}`. -/
structure Entry where
  description : String
  href : String
deriving Repr, DecidableEq

/-- `self.data['queryResult'][year][month]`: politician name → report rows. -/
abbrev PolMap := List (String × List Entry)

/-- `self.data['queryResult'][year]`: month → politician map. -/
abbrev MonthMap := List (String × PolMap)

/-- `self.data['queryResult']`: year → month map. -/
abbrev Tree := List (String × MonthMap)

instance : DecidableEq PolMap := fun a b => inferInstanceAs (Decidable (a = b))

instance : DecidableEq MonthMap := fun a b => inferInstanceAs (Decidable (a = b))

instance : DecidableEq Tree := fun a b => inferInstanceAs (Decidable (a = b))

/-- `self.data['formData'][year]`: the per-year scope discovered from the
form (`months`, `politicians`, `politicianCount`). -/
structure YearScope where
  months : List String
  politicians : List String
  politicianCount : Nat
deriving Repr, DecidableEq

/-- `self.data['formData']`: year → scope, in page order. -/
abbrev FormData := List (String × YearScope)

/-- A request issued through `Scraper.fetch`: the initial GET of the
landing page, or a POST carrying the three form parameters
(`transparencia.ano`, `transparencia.mes`, `transparencia.parlamentar`;
the constant `transparencia.tipoTransparencia.codigo = '14'` is omitted). -/
inductive Request where
  | getLanding
  | post (ano mes parlamentar : String)
deriving Repr, DecidableEq

/-- The fetch/parse collaborator: what `self.fetch(...); self.parse()`
yields for each request — a parsed page, or the exception `fetch` raises. -/
def Oracle : Type := Request → Except String Soup

/-- `self.data['queryResult'][year]`, with a missing year read as the empty
month map. -/
def mget (t : Tree) (y : String) : MonthMap :=
  (alGet t y).getD []

/-- `self.data['queryResult'][year][month]`, with missing keys read as the
empty politician map. -/
def pget (t : Tree) (y m : String) : PolMap :=
  (alGet (mget t y) m).getD []

/-- `self.data['queryResult'][year][month].get(politician)`. -/
def eget (t : Tree) (y m p : String) : Option (List Entry) :=
  alGet (pget t y m) p

/-- `self.data['queryResult'][year] = self.data['queryResult'].get(year, {})`. -/
def ensureYear (t : Tree) (y : String) : Tree :=
  alSet t y (mget t y)

/-- `self.data['queryResult'][year][month] = self.data['queryResult'][year].get(month, {})`.
The crawl loop creates the year key on the line before this one, so the
`[year]` indexing never fails; `mget` reads the same value. -/
def ensureMonth (t : Tree) (y m : String) : Tree :=
  alSet t y (alSet (mget t y) m ((alGet (mget t y) m).getD []))

/-- `...[politician] = ...[year][month].get(politician, [])`.  The year and
month keys are created by the enclosing loop before this line runs. -/
def ensurePol (t : Tree) (y m p : String) : Tree :=
  alSet t y (alSet (mget t y) m (alSet (pget t y m) p ((eget t y m p).getD [])))

/-- `self.data['queryResult'][year][month][politician].append(e)`.  At every
call site the politician key was created beforehand, so the in-place
`.append` is the same as rebinding the path to the extended list. -/
def appendEntry (t : Tree) (y m p : String) (e : Entry) : Tree :=
  alSet t y (alSet (mget t y) m (alSet (pget t y m) p (((eget t y m p).getD []) ++ [e])))

/-- Python `str.strip()` on the character list: drop whitespace from both
ends. -/
def stripChars (l : List Char) : List Char :=
  ((l.dropWhile Char.isWhitespace).reverse.dropWhile Char.isWhitespace).reverse

/-- Python `s.strip()`. -/
def pyStrip (s : String) : String :=
  ⟨stripChars s.data⟩

/-- The row built from one anchor:
`{'description': str(a.string).strip(), 'href': a.get('href', '')}`. -/
def anchor_entry (a : Anchor) : Entry :=
  ⟨pyStrip (pyStr a.astring), a.href.getD ""⟩

/-- One iteration of `for a in ...select('td a')` inside
`_extract_report_urls`: skip the anchor when `a.get('href')` is falsy,
otherwise append its row at `tree[y][m][p]`. -/
def extract_anchor (t : Tree) (y m p : String) (a : Anchor) : Tree :=
  if pyTruthy a.href then appendEntry t y m p (anchor_entry a) else t

/-- The `if politician:` branch of `_extract_report_urls`: every `td a`
anchor of the page with a truthy `href` is appended under the given
politician key. -/
def extract_pol (soup : Soup) (t : Tree) (y m p : String) : Tree :=
  soup.tdAnchors.foldl (fun t' a => extract_anchor t' y m p a) t

/-- One iteration of `for h2 in self.soup.select('h2.my-2')` in the
aggregate branch of `_extract_report_urls`: skip falsy headings, create
the detected politician's key, then append the rows of the heading's
next-sibling table (if any). -/
def extract_heading (t : Tree) (y m : String) (h : Heading) : Tree :=
  if pyTruthy h.hstring then
    let p := pyStr h.hstring
    let t1 := ensurePol t y m p
    match h.table with
    | none => t1
    | some anchors => anchors.foldl (fun t' a => extract_anchor t' y m p a) t1
  else t

/-- The `else` (aggregate) branch of `_extract_report_urls`. -/
def extract_agg (soup : Soup) (t : Tree) (y m : String) : Tree :=
  soup.headings.foldl (fun t' h => extract_heading t' y m h) t

/-- `LegislativeAssemblyScraper._extract_report_urls(year, month, politician)`:
the `if politician:` truthiness test selects the per-politician branch for a
non-empty politician string and the aggregate branch for `None` or `''`. -/
def extract_report_urls (soup : Soup) (t : Tree) (y m : String)
    (politician : Option String) : Tree :=
  if pyTruthy politician then extract_pol soup t y m (pyStr politician)
  else extract_agg soup t y m

/-- A value that can sit inside a caller-supplied filter list: the live
call sites pass ints (`years=[2019]`, `months=[2]`) and strings
(politician names). -/
inductive PyVal where
  | int (n : Int)
  | str (s : String)
deriving Repr, DecidableEq

/-- Python `str(x)` on a filter element (`[str(year) for year in years]`). -/
def PyVal.toStr : PyVal → String
  | .int n => toString n
  | .str s => s

/-- Python `x == s` between a filter element and a domain string: equal
only when `x` itself is that string (an int never equals a str). -/
def PyVal.eqStr : PyVal → String → Bool
  | .str t, s => t = s
  | .int _, _ => false

/-- A filter argument of `_query_indemnity_costs` as supplied by the
caller: `None`, a list/tuple of values, or some other Python object
(which trips the `isinstance` check). -/
inductive PyArg where
  | none
  | list (xs : List PyVal)
  | other (txt : String)
deriving Repr, DecidableEq

/-- `not isinstance(arg, (list, tuple))` for a non-`None` argument. -/
def PyArg.isOther : PyArg → Bool
  | .other _ => true
  | _ => false

/-- The `years`/`months` normalization `[str(x) for x in xs]` applied when
the argument is a list; `None` stays `None`.  (Unreachable for `.other`:
the `TypeError` checks run first.) -/
def PyArg.toNorm : PyArg → Option (List String)
  | .list xs => some (xs.map PyVal.toStr)
  | _ => Option.none

/-- The `politicians` argument, which is not normalized. -/
def PyArg.toPols : PyArg → Option (List PyVal)
  | .list xs => some xs
  | _ => Option.none

/-- The normalized filters as they stand when the crawl loop of
`_query_indemnity_costs` starts. -/
structure Filt where
  years : Option (List String)
  months : Option (List String)
  politicians : Option (List PyVal)
deriving Repr, DecidableEq

/-- `is_years_valid = isinstance(years, (list, tuple)) and len(years)`. -/
def yearsValid (f : Filt) : Bool :=
  match f.years with
  | some l => !l.isEmpty
  | none => false

/-- `is_months_valid`, as above. -/
def monthsValid (f : Filt) : Bool :=
  match f.months with
  | some l => !l.isEmpty
  | none => false

/-- `is_politicians_valid`, as above. -/
def polsValid (f : Filt) : Bool :=
  match f.politicians with
  | some l => !l.isEmpty
  | none => false

/-- `if is_years_valid and year not in years: continue`. -/
def yearExcluded (f : Filt) (y : String) : Bool :=
  yearsValid f && !(f.years.getD []).contains y

/-- `if is_months_valid and month not in months: continue`. -/
def monthExcluded (f : Filt) (m : String) : Bool :=
  monthsValid f && !(f.months.getD []).contains m

/-- `if is_politicians_valid and politician not in politicians: continue`. -/
def polExcluded (f : Filt) (p : String) : Bool :=
  polsValid f && !(f.politicians.getD []).any (fun v => v.eqStr p)

/-- The mutable scraper, restricted to the attributes the embedded methods
touch.  `is_scrap_done` is the flag `Scraper.__init__` initializes and
`get_result` tests; `is_scraping_done` is the distinct attribute
`LegislativeAssemblyScraper.start_scraping` assigns at the end.
`formData` and `tree` are `self.data['formData']` and
`self.data['queryResult']` (`[]` when the key is absent); `soup` is the
most recently parsed page and `reqs` the log of issued requests. -/
structure ScraperState where
  is_scrap_done : Bool
  is_scraping_done : Bool
  formData : FormData
  tree : Tree
  soup : Soup
  reqs : List Request
deriving Repr, DecidableEq

/-- The body of the politician loop of `_query_indemnity_costs`: filter
check, key creation, `params.update`, `try: fetch; parse except: pass`
(on failure `self.soup` keeps the previously parsed page), then
`_extract_report_urls` — which runs outside the `try`, against whatever
`self.soup` now holds. -/
def step_pol (oracle : Oracle) (f : Filt) (y m : String)
    (st : ScraperState) (p : String) : ScraperState :=
  if polExcluded f p then st
  else
    let st1 := { st with tree := ensurePol st.tree y m p }
    let req := Request.post y m p
    let st2 := { st1 with reqs := st1.reqs ++ [req] }
    let st3 :=
      match oracle req with
      | .ok s => { st2 with soup := s }
      | .error _ => st2
    { st3 with tree := extract_report_urls st3.soup st3.tree y m (some p) }

/-- The body of the month loop: filter check, month-key creation, then the
politician loop over `formData[year]['politicians']`. -/
def step_month (oracle : Oracle) (f : Filt) (y : String) (pols : List String)
    (st : ScraperState) (m : String) : ScraperState :=
  if monthExcluded f m then st
  else
    let st1 := { st with tree := ensureMonth st.tree y m }
    pols.foldl (step_pol oracle f y m) st1

/-- The body of the year loop: filter check, year-key creation, then the
month loop over `formData[year]['months']`. -/
def step_year (oracle : Oracle) (f : Filt)
    (st : ScraperState) (ysc : String × YearScope) : ScraperState :=
  if yearExcluded f ysc.1 then st
  else
    let st1 := { st with tree := ensureYear st.tree ysc.1 }
    ysc.2.months.foldl (step_month oracle f ysc.1 ysc.2.politicians) st1

/-- The crawl loop of `_query_indemnity_costs`: `for year in
self.data['formData'].keys(): ...` (the loop body never changes
`formData`, so iterating the entry list is iterating the dict). -/
def crawl (oracle : Oracle) (f : Filt) (st : ScraperState) : ScraperState :=
  st.formData.foldl (step_year oracle f) st

/-- The filters after the normalization lines of `_query_indemnity_costs`. -/
def filtOfArgs (years months politicians : PyArg) : Filt :=
  ⟨years.toNorm, months.toNorm, politicians.toPols⟩

/-- `LegislativeAssemblyScraper._query_indemnity_costs(years, months,
politicians)`.  A raised exception is modelled as `some message` in the
second component, paired with the scraper state as it stands at the
raise; the three `TypeError` checks run before anything else, so they
leave the state untouched. -/
def query_indemnity_costs (oracle : Oracle) (years months politicians : PyArg)
    (st : ScraperState) : ScraperState × Option String :=
  if years.isOther then (st, some "TypeError: years must be a list or tuple")
  else if months.isOther then (st, some "TypeError: months must be a list or tuple")
  else if politicians.isOther then (st, some "TypeError: politicians must be a list or tuple")
  else (crawl oracle (filtOfArgs years months politicians) st, Option.none)

/-- `_extract_years`: the non-empty `value`s of
`select#verbaindenizatoria_ano option`. -/
def extract_years (s : Soup) : List String :=
  s.yearOptions.filter (fun v => !v.isEmpty)

/-- `_extract_months`: the non-empty `value`s of
`select#verbaindenizatoria_mes option`. -/
def extract_months (s : Soup) : List String :=
  s.monthOptions.filter (fun v => !v.isEmpty)

/-- `_extract_politicians`: the non-empty `value`s of
`select#transparencia_parlamentar option`. -/
def extract_politicians (s : Soup) : List String :=
  s.politicianOptions.filter (fun v => !v.isEmpty)

/-- `_prepare_to_get_data_from_form`: fetch and parse the landing page
(a failure there propagates), then rebuild `self.data` as
`{'formData': {year: empty scope for each extracted year}}` — note this
wipes any previous `queryResult`. -/
def prepare_to_get_data_from_form (oracle : Oracle) :
    Except String (Soup × FormData) :=
  match oracle .getLanding with
  | .error e => .error e
  | .ok s =>
    .ok (s, (extract_years s).foldl (fun fd y => alSet fd y ⟨[], [], 0⟩) [])

/-- One iteration of the year loop of `_extract_data_from_form`: POST the
year (with `mes` and `parlamentar` empty, per `_get_params`), parse, and
store the months and politicians scoped to it.  There is no `try` around
the fetch: a failure propagates, which the `Except`-valued accumulator
records by short-circuiting. -/
def form_step (oracle : Oracle) (acc : Except String (Soup × FormData))
    (year : String) : Except String (Soup × FormData) :=
  match acc with
  | .error e => .error e
  | .ok (_, fd) =>
    match oracle (.post year "" "") with
    | .error e => .error e
    | .ok s2 =>
      let months := extract_months s2
      let pols := extract_politicians s2
      .ok (s2, alSet fd year ⟨months, pols, pols.length⟩)

/-- `_extract_data_from_form`: `for year in self.data['formData'].keys()`
(only values are updated inside the loop, so the key list is fixed). -/
def extract_data_from_form (oracle : Oracle) (s : Soup) (fd : FormData) :
    Except String (Soup × FormData) :=
  (fd.map Prod.fst).foldl (form_step oracle) (.ok (s, fd))

/-- `_extract_form_data`: discovery — prepare, then the per-year scope
requests. -/
def extract_form_data (oracle : Oracle) : Except String (Soup × FormData) :=
  match prepare_to_get_data_from_form oracle with
  | .error e => .error e
  | .ok (s, fd) => extract_data_from_form oracle s fd

/-- `LegislativeAssemblyScraper.start_scraping` on a freshly constructed
scraper: `super().start_scraping()` clears `is_scrap_done`, discovery
runs, then `_query_indemnity_costs(years=[2019], months=[2],
politicians=self.data['formData']['2019']['politicians'][:5])`
(a missing `'2019'` key raises `KeyError`), and finally the method
assigns `self.is_scraping_done = True` — not `is_scrap_done`. -/
def start_scraping (oracle : Oracle) : Except String ScraperState :=
  match extract_form_data oracle with
  | .error e => .error e
  | .ok (s, fd) =>
    match alGet fd "2019" with
    | Option.none => .error "KeyError: 2019"
    | some scope =>
      let st0 : ScraperState := ⟨false, false, fd, [], s, []⟩
      let res := query_indemnity_costs oracle (.list [.int 2019]) (.list [.int 2])
        (.list ((scope.politicians.take 5).map PyVal.str)) st0
      match res.2 with
      | some e => .error e
      | Option.none => .ok { res.1 with is_scraping_done := true }

/-- `Scraper.get_result`: raise unless `self.is_scrap_done`, else return
`self.data` (its two components here). -/
def get_result (st : ScraperState) : Except String (FormData × Tree) :=
  if st.is_scrap_done then .ok (st.formData, st.tree)
  else .error "Web scraping is not done yet"

/-- The page `_extract_report_urls` reads in the politician-loop body:
the newly fetched one on success, the stale `self.soup` on failure. -/
def soupAfter (oracle : Oracle) (req : Request) (s : Soup) : Soup :=
  match oracle req with
  | .ok s2 => s2
  | .error _ => s

/-- The request the politician-loop body issues for one politician:
none when the filter skips them, else the single POST. -/
def pol_req (f : Filt) (y m p : String) : List Request :=
  if polExcluded f p then [] else [Request.post y m p]

/-- The requests one month iteration issues. -/
def month_reqs (f : Filt) (y : String) (pols : List String) (m : String) :
    List Request :=
  if monthExcluded f m then [] else pols.flatMap (fun p => pol_req f y m p)

/-- The requests one year iteration issues. -/
def year_reqs (f : Filt) (ysc : String × YearScope) : List Request :=
  if yearExcluded f ysc.1 then []
  else ysc.2.months.flatMap (fun m => month_reqs f ysc.1 ysc.2.politicians m)

/-- All requests the crawl loop issues, in loop order: one per effective
(year, month, politician) combination, years outermost, then months,
then politicians, each dimension in domain order. -/
def combos (f : Filt) (fd : FormData) : List Request :=
  fd.flatMap (year_reqs f)

/-- `effectiveYears(D, F)`: the discovered years that survive the year
filter (all of them when the filter is absent or empty). -/
def effectiveYears (f : Filt) (fd : FormData) : List String :=
  (fd.map Prod.fst).filter (fun y => !(yearExcluded f y))

/-- The contribution of one anchor to an extraction: dropped when its
`href` is falsy, kept as its row otherwise. -/
def keptEntry (a : Anchor) : Option Entry :=
  if pyTruthy a.href then some (anchor_entry a) else Option.none

/-- `l2` extends `l1`: entries were only appended at the end. -/
def entsLe (l1 l2 : List Entry) : Prop :=
  ∃ s, l2 = l1 ++ s

/-- Politician-map extension: every existing list is only appended to,
no key is removed. -/
def polLe (a b : PolMap) : Prop :=
  ∀ k l, alGet a k = some l → ∃ l2, alGet b k = some l2 ∧ entsLe l l2

/-- Month-map extension. -/
def monLe (a b : MonthMap) : Prop :=
  ∀ k pm, alGet a k = some pm → ∃ pm2, alGet b k = some pm2 ∧ polLe pm pm2

/-- Result-tree extension: the monotone-growth order of the accumulator —
`treeLe a b` holds when `b` has every key of `a` and every list reachable
in `a` is a prefix (by appending) of the corresponding list in `b`. -/
def treeLe (a b : Tree) : Prop :=
  ∀ k mm, alGet a k = some mm → ∃ mm2, alGet b k = some mm2 ∧ monLe mm mm2

/-- A parsed page with nothing the extraction selectors match. -/
def soupEmpty : Soup := ⟨[], [], [], [], []⟩

/-- A page whose `td a` anchors hold one report row. -/
def soupOneRow : Soup := ⟨[], [], [], [⟨some "u1", some "d1"⟩], []⟩

/-- A transport that answers politician `A`'s query with `soupOneRow` and
fails every other request. -/
def oracleStale : Oracle := fun r =>
  match r with
  | .post _ _ "A" => .ok soupOneRow
  | _ => .error "boom"

/-- A one-year domain with one month and politicians `A` and `B`. -/
def fdStale : FormData := [("2019", ⟨["1"], ["A", "B"], 2⟩)]

/-- A crawl state at the start of `_query_indemnity_costs` over `fdStale`. -/
def stStale : ScraperState := ⟨false, false, fdStale, [], soupEmpty, []⟩

/-- No caller filters at all (`years=months=politicians=None`). -/
def noFilt : Filt := ⟨Option.none, Option.none, Option.none⟩

/-- A landing page offering the single year option `2019`. -/
def soupLanding : Soup := ⟨["2019"], [], [], [], []⟩

/-- A transport where the landing page offers year `2019` and every POST
returns a page with no month and no politician options. -/
def oracleRun : Oracle := fun r =>
  match r with
  | .getLanding => .ok soupLanding
  | .post _ _ _ => .ok soupEmpty

/-- A transport where the landing page succeeds but every per-year scope
POST fails. -/
def oracleScopeFail : Oracle := fun r =>
  match r with
  | .getLanding => .ok soupLanding
  | .post _ _ _ => .error "boom"

/-- A page whose `h2.my-2` headings announce politicians `A` and `B`, each
followed by a table with one report row. -/
def soupTwoPols : Soup := ⟨[], [], [],
  [],
  [⟨some "A", some [⟨some "u1", some "d1"⟩]⟩,
   ⟨some "B", some [⟨some "u2", some "d2"⟩]⟩]⟩

/-- A result tree where the `(2019, 1)` keys exist with no politicians. -/
def treeYM : Tree := [("2019", [("1", [])])]

/-- A page whose `td a` anchors exercise the drop/keep cases: a missing
`href`, an empty `href`, a kept row with empty text, and a kept row with
no text node. -/
def soupDropKeep : Soup := ⟨[], [], [],
  [⟨Option.none, some "d"⟩, ⟨some "", some "d"⟩, ⟨some "u", some ""⟩,
   ⟨some "u2", Option.none⟩],
  []⟩

/-- The two-year domain of the `PER_POLITICIAN` scenario:
`2019` scopes to months `1`, `2` and politicians `A`, `B`. -/
def fdScenario : FormData :=
  [("2019", ⟨["1", "2"], ["A", "B"], 2⟩), ("2020", ⟨["1"], ["C"], 1⟩)]

/-- A crawl state at the start of `_query_indemnity_costs` over
`fdScenario`. -/
def stScenario : ScraperState := ⟨false, false, fdScenario, [], soupEmpty, []⟩

/-- A transport where every request succeeds with an empty page. -/
def oracleOk : Oracle := fun _ => .ok soupEmpty

theorem alGet_alSet_self {α : Type} (m : List (String × α)) (k : String) (v : α) :
    alGet (alSet m k v) k = some v := by
  induction m with
  | nil => simp [alGet, alSet]
  | cons hd tl ih =>
    by_cases h : hd.1 = k
    · simp [alSet, alGet, h]
    · simp [alSet, alGet, h, ih]

theorem alGet_alSet_ne {α : Type} (m : List (String × α)) (k k' : String) (v : α)
    (h : k ≠ k') : alGet (alSet m k v) k' = alGet m k' := by
  induction m with
  | nil => simp [alGet, alSet, h]
  | cons hd tl ih =>
    by_cases h1 : hd.1 = k
    · simp [alSet, alGet, h1, h]
    · by_cases h2 : hd.1 = k'
      · simp [alSet, alGet, h1, h2, Ne.symm h]
      · simp [alSet, alGet, h1, h2, ih]

theorem mem_alKeys_alSet {α : Type} (m : List (String × α)) (k : String) (v : α)
    (z : String) : z ∈ alKeys (alSet m k v) ↔ z ∈ alKeys m ∨ z = k := by
  induction m with
  | nil => simp [alSet, alKeys, eq_comm]
  | cons hd tl ih =>
    simp only [alSet]
    by_cases h : hd.1 = k
    · subst h
      rw [if_pos rfl]
      simp only [alKeys, List.map_cons, List.mem_cons]
      tauto
    · simp only [if_neg h, alKeys, List.map_cons, List.mem_cons] at ih ⊢
      rw [ih]
      tauto

theorem mem_alKeys_iff_alGet {α : Type} (m : List (String × α)) (z : String) :
    z ∈ alKeys m ↔ ∃ v, alGet m z = some v := by
  induction m with
  | nil => simp [alKeys, alGet]
  | cons hd tl ih =>
    by_cases h : hd.1 = z
    · simp [alKeys, alGet, h]
    · simp only [alKeys, List.map_cons, List.mem_cons, alGet, if_neg h] at ih ⊢
      rw [ih]
      constructor
      · rintro (h1 | h1)
        · exact absurd h1.symm h
        · exact h1
      · exact Or.inr

/-- Generic preservation of a state predicate along `List.foldl` — the
workhorse for loop invariants of the crawl loops. -/
theorem foldl_pres {σ β : Type} (g : σ → β → σ) (P : σ → Prop)
    (hg : ∀ st b, P st → P (g st b)) :
    ∀ (l : List β) (st : σ), P st → P (List.foldl g st l) := by
  intro l
  induction l with
  | nil => intro st h; exact h
  | cons b tl ih => intro st h; exact ih _ (hg _ _ h)

theorem mget_alSet_self (t : Tree) (y : String) (v : MonthMap) :
    mget (alSet t y v) y = v := by
  simp [mget, alGet_alSet_self]

theorem mget_alSet_ne (t : Tree) (y w : String) (v : MonthMap) (h : y ≠ w) :
    mget (alSet t y v) w = mget t w := by
  simp [mget, alGet_alSet_ne _ _ _ _ h]

theorem mget_ensureYear (t : Tree) (y w : String) :
    mget (ensureYear t y) w = mget t w := by
  by_cases h : y = w
  · subst h
    simp [ensureYear, mget_alSet_self]
  · simp [ensureYear, mget_alSet_ne _ _ _ _ h]

theorem mget_ensureMonth_self (t : Tree) (y m : String) :
    mget (ensureMonth t y m) y
      = alSet (mget t y) m ((alGet (mget t y) m).getD []) :=
  mget_alSet_self _ _ _

theorem mget_ensureMonth_ne (t : Tree) (y m w : String) (h : y ≠ w) :
    mget (ensureMonth t y m) w = mget t w :=
  mget_alSet_ne _ _ _ _ h

theorem mget_ensurePol_self (t : Tree) (y m p : String) :
    mget (ensurePol t y m p) y
      = alSet (mget t y) m (alSet (pget t y m) p ((eget t y m p).getD [])) :=
  mget_alSet_self _ _ _

theorem mget_ensurePol_ne (t : Tree) (y m p w : String) (h : y ≠ w) :
    mget (ensurePol t y m p) w = mget t w :=
  mget_alSet_ne _ _ _ _ h

theorem mget_appendEntry_self (t : Tree) (y m p : String) (e : Entry) :
    mget (appendEntry t y m p e) y
      = alSet (mget t y) m (alSet (pget t y m) p (((eget t y m p).getD []) ++ [e])) :=
  mget_alSet_self _ _ _

theorem mget_appendEntry_ne (t : Tree) (y m p w : String) (e : Entry) (h : y ≠ w) :
    mget (appendEntry t y m p e) w = mget t w :=
  mget_alSet_ne _ _ _ _ h

/-- Year keys after the three lazy-creation operations and the append:
each of them is `alSet t y _`, so it adds at most the key `y`. -/
theorem mem_alKeys_ensureYear (t : Tree) (y z : String) :
    z ∈ alKeys (ensureYear t y) ↔ z ∈ alKeys t ∨ z = y :=
  mem_alKeys_alSet _ _ _ _

theorem mem_alKeys_ensureMonth (t : Tree) (y m z : String) :
    z ∈ alKeys (ensureMonth t y m) ↔ z ∈ alKeys t ∨ z = y :=
  mem_alKeys_alSet _ _ _ _

theorem mem_alKeys_ensurePol (t : Tree) (y m p z : String) :
    z ∈ alKeys (ensurePol t y m p) ↔ z ∈ alKeys t ∨ z = y :=
  mem_alKeys_alSet _ _ _ _

theorem mem_alKeys_appendEntry (t : Tree) (y m p z : String) (e : Entry) :
    z ∈ alKeys (appendEntry t y m p e) ↔ z ∈ alKeys t ∨ z = y :=
  mem_alKeys_alSet _ _ _ _

/-- Month keys (at any year `w`) after `ensureMonth t y m`: at most the
key `m` at year `y` is added. -/
theorem monthkeys_ensureMonth (t : Tree) (y m w z : String) :
    z ∈ alKeys (mget (ensureMonth t y m) w)
      ↔ z ∈ alKeys (mget t w) ∨ (w = y ∧ z = m) := by
  by_cases h : y = w
  · subst h
    rw [mget_ensureMonth_self, mem_alKeys_alSet]
    tauto
  · rw [mget_ensureMonth_ne _ _ _ _ h]
    have : ¬(w = y ∧ z = m) := fun hc => h hc.1.symm
    tauto

theorem monthkeys_ensurePol (t : Tree) (y m p w z : String) :
    z ∈ alKeys (mget (ensurePol t y m p) w)
      ↔ z ∈ alKeys (mget t w) ∨ (w = y ∧ z = m) := by
  by_cases h : y = w
  · subst h
    rw [mget_ensurePol_self, mem_alKeys_alSet]
    tauto
  · rw [mget_ensurePol_ne _ _ _ _ _ h]
    have : ¬(w = y ∧ z = m) := fun hc => h hc.1.symm
    tauto

theorem monthkeys_appendEntry (t : Tree) (y m p w z : String) (e : Entry) :
    z ∈ alKeys (mget (appendEntry t y m p e) w)
      ↔ z ∈ alKeys (mget t w) ∨ (w = y ∧ z = m) := by
  by_cases h : y = w
  · subst h
    rw [mget_appendEntry_self, mem_alKeys_alSet]
    tauto
  · rw [mget_appendEntry_ne _ _ _ _ _ _ h]
    have : ¬(w = y ∧ z = m) := fun hc => h hc.1.symm
    tauto

theorem monthkeys_extract_anchor (t : Tree) (y m p : String) (a : Anchor)
    (w z : String) :
    z ∈ alKeys (mget (extract_anchor t y m p a) w)
      ↔ z ∈ alKeys (mget t w) ∨ (w = y ∧ z = m ∧ pyTruthy a.href = true) := by
  unfold extract_anchor
  by_cases h : pyTruthy a.href
  · rw [if_pos h, monthkeys_appendEntry]
    tauto
  · rw [if_neg h]
    simp only [h]
    tauto

theorem mem_alKeys_extract_anchor (t : Tree) (y m p : String) (a : Anchor)
    (z : String) :
    z ∈ alKeys (extract_anchor t y m p a) ↔
      z ∈ alKeys t ∨ (z = y ∧ pyTruthy a.href = true) := by
  unfold extract_anchor
  by_cases h : pyTruthy a.href
  · rw [if_pos h, mem_alKeys_appendEntry]
    tauto
  · rw [if_neg h]
    simp only [h]
    tauto

/-- Year keys only grow along a fold of `extract_anchor` at `(y, m, p)`,
and any new key equals `y`; same for month keys and `m`. -/
theorem keys_grow_anchorfold (y m p : String) (l : List Anchor) (t : Tree)
    (z : String) (h : z ∈ alKeys t) :
    z ∈ alKeys (l.foldl (fun t' a => extract_anchor t' y m p a) t) := by
  refine foldl_pres _ (fun t' => z ∈ alKeys t') ?_ l t h
  intro t' a h'
  rw [mem_alKeys_extract_anchor]
  exact Or.inl h'

theorem keys_new_anchorfold (y m p : String) (l : List Anchor) (t : Tree)
    (z : String) (hz : z ≠ y) (h : z ∉ alKeys t) :
    z ∉ alKeys (l.foldl (fun t' a => extract_anchor t' y m p a) t) := by
  refine foldl_pres _ (fun t' => z ∉ alKeys t') ?_ l t h
  intro t' a h' hc
  rw [mem_alKeys_extract_anchor] at hc
  rcases hc with hc | hc
  · exact h' hc
  · exact hz hc.1

theorem monthkeys_grow_anchorfold (y m p : String) (l : List Anchor) (t : Tree)
    (w z : String) (h : z ∈ alKeys (mget t w)) :
    z ∈ alKeys (mget (l.foldl (fun t' a => extract_anchor t' y m p a) t) w) := by
  refine foldl_pres _ (fun t' => z ∈ alKeys (mget t' w)) ?_ l t h
  intro t' a h'
  rw [monthkeys_extract_anchor]
  exact Or.inl h'

theorem monthkeys_new_anchorfold (y m p : String) (l : List Anchor) (t : Tree)
    (w z : String) (hz : w ≠ y ∨ z ≠ m) (h : z ∉ alKeys (mget t w)) :
    z ∉ alKeys (mget (l.foldl (fun t' a => extract_anchor t' y m p a) t) w) := by
  refine foldl_pres _ (fun t' => z ∉ alKeys (mget t' w)) ?_ l t h
  intro t' a h' hc
  rw [monthkeys_extract_anchor] at hc
  rcases hc with hc | hc
  · exact h' hc
  · rcases hz with hz | hz
    · exact hz hc.1
    · exact hz hc.2.1

theorem keys_grow_extract_heading (t : Tree) (y m : String) (h : Heading)
    (z : String) (hz : z ∈ alKeys t) : z ∈ alKeys (extract_heading t y m h) := by
  unfold extract_heading
  by_cases ht : pyTruthy h.hstring
  · rw [if_pos ht]
    cases h.table with
    | none =>
      simp only [mem_alKeys_ensurePol]
      exact Or.inl hz
    | some l =>
      refine keys_grow_anchorfold _ _ _ _ _ _ ?_
      rw [mem_alKeys_ensurePol]
      exact Or.inl hz
  · rw [if_neg ht]
    exact hz

theorem keys_new_extract_heading (t : Tree) (y m : String) (h : Heading)
    (z : String) (hy : z ≠ y) (hz : z ∉ alKeys t) :
    z ∉ alKeys (extract_heading t y m h) := by
  unfold extract_heading
  by_cases ht : pyTruthy h.hstring
  · rw [if_pos ht]
    cases h.table with
    | none =>
      simp only [mem_alKeys_ensurePol]
      rintro (hc | hc)
      · exact hz hc
      · exact hy hc
    | some l =>
      refine keys_new_anchorfold _ _ _ _ _ _ hy ?_
      rw [mem_alKeys_ensurePol]
      rintro (hc | hc)
      · exact hz hc
      · exact hy hc
  · rw [if_neg ht]
    exact hz

theorem monthkeys_grow_extract_heading (t : Tree) (y m : String) (h : Heading)
    (w z : String) (hz : z ∈ alKeys (mget t w)) :
    z ∈ alKeys (mget (extract_heading t y m h) w) := by
  unfold extract_heading
  by_cases ht : pyTruthy h.hstring
  · rw [if_pos ht]
    cases h.table with
    | none =>
      rw [monthkeys_ensurePol]
      exact Or.inl hz
    | some l =>
      refine monthkeys_grow_anchorfold _ _ _ _ _ _ _ ?_
      rw [monthkeys_ensurePol]
      exact Or.inl hz
  · rw [if_neg ht]
    exact hz

theorem monthkeys_new_extract_heading (t : Tree) (y m : String) (h : Heading)
    (w z : String) (hwz : w ≠ y ∨ z ≠ m) (hz : z ∉ alKeys (mget t w)) :
    z ∉ alKeys (mget (extract_heading t y m h) w) := by
  unfold extract_heading
  have hstep : ∀ t' : Tree, z ∉ alKeys (mget t' w) →
      z ∉ alKeys (mget (ensurePol t' y m (pyStr h.hstring)) w) := by
    intro t' h' hc
    rw [monthkeys_ensurePol] at hc
    rcases hc with hc | hc
    · exact h' hc
    · rcases hwz with hw | hm
      · exact hw hc.1
      · exact hm hc.2
  by_cases ht : pyTruthy h.hstring
  · rw [if_pos ht]
    cases h.table with
    | none => exact hstep _ hz
    | some l => exact monthkeys_new_anchorfold _ _ _ _ _ _ _ hwz (hstep _ hz)
  · rw [if_neg ht]
    exact hz

theorem keys_grow_extract_report_urls (soup : Soup) (t : Tree) (y m : String)
    (pol : Option String) (z : String) (hz : z ∈ alKeys t) :
    z ∈ alKeys (extract_report_urls soup t y m pol) := by
  unfold extract_report_urls
  by_cases hp : pyTruthy pol
  · rw [if_pos hp]
    exact keys_grow_anchorfold _ _ _ _ _ _ hz
  · rw [if_neg hp]
    refine foldl_pres _ (fun t' => z ∈ alKeys t') ?_ _ _ hz
    intro t' h h'
    exact keys_grow_extract_heading _ _ _ _ _ h'

theorem keys_new_extract_report_urls (soup : Soup) (t : Tree) (y m : String)
    (pol : Option String) (z : String) (hy : z ≠ y) (hz : z ∉ alKeys t) :
    z ∉ alKeys (extract_report_urls soup t y m pol) := by
  unfold extract_report_urls
  by_cases hp : pyTruthy pol
  · rw [if_pos hp]
    exact keys_new_anchorfold _ _ _ _ _ _ hy hz
  · rw [if_neg hp]
    refine foldl_pres _ (fun t' => z ∉ alKeys t') ?_ _ _ hz
    intro t' h h'
    exact keys_new_extract_heading _ _ _ _ _ hy h'

theorem monthkeys_grow_extract_report_urls (soup : Soup) (t : Tree) (y m : String)
    (pol : Option String) (w z : String) (hz : z ∈ alKeys (mget t w)) :
    z ∈ alKeys (mget (extract_report_urls soup t y m pol) w) := by
  unfold extract_report_urls
  by_cases hp : pyTruthy pol
  · rw [if_pos hp]
    exact monthkeys_grow_anchorfold _ _ _ _ _ _ _ hz
  · rw [if_neg hp]
    refine foldl_pres _ (fun t' => z ∈ alKeys (mget t' w)) ?_ _ _ hz
    intro t' h h'
    exact monthkeys_grow_extract_heading _ _ _ _ _ _ h'

theorem monthkeys_new_extract_report_urls (soup : Soup) (t : Tree) (y m : String)
    (pol : Option String) (w z : String) (hwz : w ≠ y ∨ z ≠ m)
    (hz : z ∉ alKeys (mget t w)) :
    z ∉ alKeys (mget (extract_report_urls soup t y m pol) w) := by
  unfold extract_report_urls
  by_cases hp : pyTruthy pol
  · rw [if_pos hp]
    exact monthkeys_new_anchorfold _ _ _ _ _ _ _ hwz hz
  · rw [if_neg hp]
    refine foldl_pres _ (fun t' => z ∉ alKeys (mget t' w)) ?_ _ _ hz
    intro t' h h'
    exact monthkeys_new_extract_heading _ _ _ _ _ _ hwz h'

/-- Normal form of the politician-loop body. -/
theorem step_pol_eq (oracle : Oracle) (f : Filt) (y m : String)
    (st : ScraperState) (p : String) :
    step_pol oracle f y m st p =
      if polExcluded f p then st
      else
        { st with
          tree := extract_report_urls (soupAfter oracle (.post y m p) st.soup)
            (ensurePol st.tree y m p) y m (some p),
          soup := soupAfter oracle (.post y m p) st.soup,
          reqs := st.reqs ++ [.post y m p] } := by
  unfold step_pol soupAfter
  by_cases hp : polExcluded f p
  · rw [if_pos hp, if_pos hp]
  · rw [if_neg hp, if_neg hp]
    cases h : oracle (Request.post y m p) <;> simp [h]

theorem keys_grow_step_pol (oracle : Oracle) (f : Filt) (y m : String)
    (st : ScraperState) (p : String) (z : String) (hz : z ∈ alKeys st.tree) :
    z ∈ alKeys (step_pol oracle f y m st p).tree := by
  rw [step_pol_eq]
  by_cases hp : polExcluded f p
  · rw [if_pos hp]; exact hz
  · rw [if_neg hp]
    refine keys_grow_extract_report_urls _ _ _ _ _ _ ?_
    rw [mem_alKeys_ensurePol]
    exact Or.inl hz

theorem keys_new_step_pol (oracle : Oracle) (f : Filt) (y m : String)
    (st : ScraperState) (p : String) (z : String) (hy : z ≠ y)
    (hz : z ∉ alKeys st.tree) : z ∉ alKeys (step_pol oracle f y m st p).tree := by
  rw [step_pol_eq]
  by_cases hp : polExcluded f p
  · rw [if_pos hp]; exact hz
  · rw [if_neg hp]
    refine keys_new_extract_report_urls _ _ _ _ _ _ hy ?_
    rw [mem_alKeys_ensurePol]
    rintro (hc | hc)
    · exact hz hc
    · exact hy hc

theorem monthkeys_grow_step_pol (oracle : Oracle) (f : Filt) (y m : String)
    (st : ScraperState) (p : String) (w z : String)
    (hz : z ∈ alKeys (mget st.tree w)) :
    z ∈ alKeys (mget (step_pol oracle f y m st p).tree w) := by
  rw [step_pol_eq]
  by_cases hp : polExcluded f p
  · rw [if_pos hp]; exact hz
  · rw [if_neg hp]
    refine monthkeys_grow_extract_report_urls _ _ _ _ _ _ _ ?_
    rw [monthkeys_ensurePol]
    exact Or.inl hz

theorem monthkeys_new_step_pol (oracle : Oracle) (f : Filt) (y m : String)
    (st : ScraperState) (p : String) (w z : String) (hwz : w ≠ y ∨ z ≠ m)
    (hz : z ∉ alKeys (mget st.tree w)) :
    z ∉ alKeys (mget (step_pol oracle f y m st p).tree w) := by
  rw [step_pol_eq]
  by_cases hp : polExcluded f p
  · rw [if_pos hp]; exact hz
  · rw [if_neg hp]
    refine monthkeys_new_extract_report_urls _ _ _ _ _ _ _ hwz ?_
    rw [monthkeys_ensurePol]
    rintro (hc | hc)
    · exact hz hc
    · rcases hwz with hw | hm
      · exact hw hc.1
      · exact hm hc.2

theorem monthkeys_step_month_char (oracle : Oracle) (f : Filt) (y : String)
    (pols : List String) (st : ScraperState) (m : String) (w z : String) :
    z ∈ alKeys (mget (step_month oracle f y pols st m).tree w) ↔
      z ∈ alKeys (mget st.tree w)
        ∨ (monthExcluded f m = false ∧ w = y ∧ z = m) := by
  unfold step_month
  by_cases hm : monthExcluded f m
  · rw [if_pos hm]
    simp only [hm]
    tauto
  · rw [if_neg hm]
    rw [Bool.not_eq_true] at hm
    constructor
    · intro h
      by_cases hc : w = y ∧ z = m
      · exact Or.inr ⟨hm, hc.1, hc.2⟩
      · left
        have hwz : w ≠ y ∨ z ≠ m := by tauto
        by_contra hz
        have h1 : z ∉ alKeys (mget (ensureMonth st.tree y m) w) := by
          rw [monthkeys_ensureMonth]
          rintro (hc1 | hc1)
          · exact hz hc1
          · exact hc ⟨hc1.1, hc1.2⟩
        exact (foldl_pres _ (fun st' : ScraperState => z ∉ alKeys (mget st'.tree w))
          (fun st' p h' => monthkeys_new_step_pol _ _ _ _ _ _ _ _ hwz h') pols _ h1) h
    · rintro (h | ⟨_, hw, hzm⟩)
      · refine foldl_pres _ (fun st' : ScraperState => z ∈ alKeys (mget st'.tree w))
          (fun st' p h' => monthkeys_grow_step_pol _ _ _ _ _ _ _ _ h') pols _ ?_
        show z ∈ alKeys (mget (ensureMonth st.tree y m) w)
        rw [monthkeys_ensureMonth]
        exact Or.inl h
      · refine foldl_pres _ (fun st' : ScraperState => z ∈ alKeys (mget st'.tree w))
          (fun st' p h' => monthkeys_grow_step_pol _ _ _ _ _ _ _ _ h') pols _ ?_
        show z ∈ alKeys (mget (ensureMonth st.tree y m) w)
        rw [monthkeys_ensureMonth]
        exact Or.inr ⟨hw, hzm⟩

theorem keys_grow_step_month (oracle : Oracle) (f : Filt) (y : String)
    (pols : List String) (st : ScraperState) (m : String) (z : String)
    (hz : z ∈ alKeys st.tree) :
    z ∈ alKeys (step_month oracle f y pols st m).tree := by
  unfold step_month
  by_cases hm : monthExcluded f m
  · rw [if_pos hm]; exact hz
  · rw [if_neg hm]
    refine foldl_pres _ (fun st' : ScraperState => z ∈ alKeys st'.tree)
      (fun st' p h' => keys_grow_step_pol _ _ _ _ _ _ _ h') pols _ ?_
    show z ∈ alKeys (ensureMonth st.tree y m)
    rw [mem_alKeys_ensureMonth]
    exact Or.inl hz

theorem keys_new_step_month (oracle : Oracle) (f : Filt) (y : String)
    (pols : List String) (st : ScraperState) (m : String) (z : String)
    (hy : z ≠ y) (hz : z ∉ alKeys st.tree) :
    z ∉ alKeys (step_month oracle f y pols st m).tree := by
  unfold step_month
  by_cases hm : monthExcluded f m
  · rw [if_pos hm]; exact hz
  · rw [if_neg hm]
    refine foldl_pres _ (fun st' : ScraperState => z ∉ alKeys st'.tree)
      (fun st' p h' => keys_new_step_pol _ _ _ _ _ _ _ hy h') pols _ ?_
    show z ∉ alKeys (ensureMonth st.tree y m)
    rw [mem_alKeys_ensureMonth]
    rintro (hc | hc)
    · exact hz hc
    · exact hy hc

theorem keys_step_year_char (oracle : Oracle) (f : Filt) (st : ScraperState)
    (ysc : String × YearScope) (z : String) :
    z ∈ alKeys (step_year oracle f st ysc).tree ↔
      z ∈ alKeys st.tree ∨ (yearExcluded f ysc.1 = false ∧ z = ysc.1) := by
  unfold step_year
  by_cases hy : yearExcluded f ysc.1
  · rw [if_pos hy]
    simp only [hy]
    tauto
  · rw [if_neg hy]
    rw [Bool.not_eq_true] at hy
    constructor
    · intro h
      by_cases hz : z = ysc.1
      · exact Or.inr ⟨hy, hz⟩
      · left
        by_contra hc
        have h1 : z ∉ alKeys (ensureYear st.tree ysc.1) := by
          rw [mem_alKeys_ensureYear]
          rintro (h2 | h2)
          · exact hc h2
          · exact hz h2
        exact (foldl_pres _ (fun st' : ScraperState => z ∉ alKeys st'.tree)
          (fun st' m h' => keys_new_step_month _ _ _ _ _ _ _ hz h')
          ysc.2.months _ h1) h
    · rintro (h | ⟨_, hz⟩)
      · refine foldl_pres _ (fun st' : ScraperState => z ∈ alKeys st'.tree)
          (fun st' m h' => keys_grow_step_month _ _ _ _ _ _ _ h')
          ysc.2.months _ ?_
        show z ∈ alKeys (ensureYear st.tree ysc.1)
        rw [mem_alKeys_ensureYear]
        exact Or.inl h
      · refine foldl_pres _ (fun st' : ScraperState => z ∈ alKeys st'.tree)
          (fun st' m h' => keys_grow_step_month _ _ _ _ _ _ _ h')
          ysc.2.months _ ?_
        show z ∈ alKeys (ensureYear st.tree ysc.1)
        rw [mem_alKeys_ensureYear]
        exact Or.inr hz

theorem monthkeys_monthfold_char (oracle : Oracle) (f : Filt) (y : String)
    (pols : List String) (w z : String) :
    ∀ (ms : List String) (st : ScraperState),
      z ∈ alKeys (mget ((ms.foldl (step_month oracle f y pols) st)).tree w) ↔
        z ∈ alKeys (mget st.tree w)
          ∨ (w = y ∧ z ∈ ms ∧ monthExcluded f z = false) := by
  intro ms
  induction ms with
  | nil => simp
  | cons m ms ih =>
    intro st
    rw [List.foldl_cons, ih, monthkeys_step_month_char]
    constructor
    · rintro ((h | ⟨hex, hw, hzm⟩) | ⟨hw, hzm, hex⟩)
      · exact Or.inl h
      · subst hzm
        exact Or.inr ⟨hw, List.mem_cons_self _ _, hex⟩
      · exact Or.inr ⟨hw, List.mem_cons_of_mem _ hzm, hex⟩
    · rintro (h | ⟨hw, hzm, hex⟩)
      · exact Or.inl (Or.inl h)
      · rcases List.mem_cons.mp hzm with h1 | h1
        · subst h1
          exact Or.inl (Or.inr ⟨hex, hw, rfl⟩)
        · exact Or.inr ⟨hw, h1, hex⟩

theorem monthkeys_step_year_char (oracle : Oracle) (f : Filt) (st : ScraperState)
    (ysc : String × YearScope) (w z : String) :
    z ∈ alKeys (mget (step_year oracle f st ysc).tree w) ↔
      z ∈ alKeys (mget st.tree w)
        ∨ (yearExcluded f ysc.1 = false ∧ w = ysc.1 ∧ z ∈ ysc.2.months
            ∧ monthExcluded f z = false) := by
  unfold step_year
  by_cases hy : yearExcluded f ysc.1
  · rw [if_pos hy]
    simp only [hy]
    tauto
  · rw [if_neg hy]
    rw [Bool.not_eq_true] at hy
    rw [monthkeys_monthfold_char]
    show z ∈ alKeys (mget (ensureYear st.tree ysc.1) w) ∨ _ ↔ _
    rw [mget_ensureYear]
    simp only [hy, true_and]

theorem keys_yearfold_char (oracle : Oracle) (f : Filt) (z : String) :
    ∀ (l : List (String × YearScope)) (st : ScraperState),
      z ∈ alKeys (l.foldl (step_year oracle f) st).tree ↔
        z ∈ alKeys st.tree
          ∨ ((∃ sc, (z, sc) ∈ l) ∧ yearExcluded f z = false) := by
  intro l
  induction l with
  | nil => simp
  | cons ysc l ih =>
    intro st
    rw [List.foldl_cons, ih, keys_step_year_char]
    constructor
    · rintro ((h | ⟨hex, hz⟩) | ⟨⟨sc, hsc⟩, hex⟩)
      · exact Or.inl h
      · subst hz
        exact Or.inr ⟨⟨ysc.2, List.mem_cons_self _ _⟩, hex⟩
      · exact Or.inr ⟨⟨sc, List.mem_cons_of_mem _ hsc⟩, hex⟩
    · rintro (h | ⟨⟨sc, hsc⟩, hex⟩)
      · exact Or.inl (Or.inl h)
      · rcases List.mem_cons.mp hsc with h1 | h1
        · rw [← h1]
          exact Or.inl (Or.inr ⟨hex, rfl⟩)
        · exact Or.inr ⟨⟨sc, h1⟩, hex⟩

theorem monthkeys_yearfold_char (oracle : Oracle) (f : Filt) (w z : String) :
    ∀ (l : List (String × YearScope)) (st : ScraperState),
      z ∈ alKeys (mget (l.foldl (step_year oracle f) st).tree w) ↔
        z ∈ alKeys (mget st.tree w)
          ∨ ∃ sc, (w, sc) ∈ l ∧ yearExcluded f w = false ∧ z ∈ sc.months
              ∧ monthExcluded f z = false := by
  intro l
  induction l with
  | nil => simp
  | cons ysc l ih =>
    intro st
    rw [List.foldl_cons, ih, monthkeys_step_year_char]
    constructor
    · rintro ((h | ⟨hex, hw, hzm, hmex⟩) | ⟨sc, hsc, hex, hzm, hmex⟩)
      · exact Or.inl h
      · subst hw
        exact Or.inr ⟨ysc.2, List.mem_cons_self _ _, hex, hzm, hmex⟩
      · exact Or.inr ⟨sc, List.mem_cons_of_mem _ hsc, hex, hzm, hmex⟩
    · rintro (h | ⟨sc, hsc, hex, hzm, hmex⟩)
      · exact Or.inl (Or.inl h)
      · rcases List.mem_cons.mp hsc with h1 | h1
        · have hw : w = ysc.1 := by rw [← h1]
          have hsc2 : sc = ysc.2 := by rw [← h1]
          exact Or.inl (Or.inr ⟨hw ▸ hex, hw, hsc2 ▸ hzm, hmex⟩)
        · exact Or.inr ⟨sc, h1, hex, hzm, hmex⟩

theorem step_pol_reqs (oracle : Oracle) (f : Filt) (y m : String)
    (st : ScraperState) (p : String) :
    (step_pol oracle f y m st p).reqs = st.reqs ++ pol_req f y m p := by
  rw [step_pol_eq]
  unfold pol_req
  by_cases hp : polExcluded f p
  · rw [if_pos hp, if_pos hp, List.append_nil]
  · rw [if_neg hp, if_neg hp]

theorem polfold_reqs (oracle : Oracle) (f : Filt) (y m : String) :
    ∀ (pols : List String) (st : ScraperState),
      (pols.foldl (step_pol oracle f y m) st).reqs
        = st.reqs ++ pols.flatMap (fun p => pol_req f y m p) := by
  intro pols
  induction pols with
  | nil => intro st; simp
  | cons p pols ih =>
    intro st
    rw [List.foldl_cons, ih, step_pol_reqs, List.flatMap_cons, List.append_assoc]

theorem step_month_reqs (oracle : Oracle) (f : Filt) (y : String)
    (pols : List String) (st : ScraperState) (m : String) :
    (step_month oracle f y pols st m).reqs
      = st.reqs ++ month_reqs f y pols m := by
  unfold step_month month_reqs
  by_cases hm : monthExcluded f m
  · rw [if_pos hm, if_pos hm, List.append_nil]
  · rw [if_neg hm, if_neg hm, polfold_reqs]

theorem monthfold_reqs (oracle : Oracle) (f : Filt) (y : String)
    (pols : List String) :
    ∀ (ms : List String) (st : ScraperState),
      (ms.foldl (step_month oracle f y pols) st).reqs
        = st.reqs ++ ms.flatMap (fun m => month_reqs f y pols m) := by
  intro ms
  induction ms with
  | nil => intro st; simp
  | cons m ms ih =>
    intro st
    rw [List.foldl_cons, ih, step_month_reqs, List.flatMap_cons, List.append_assoc]

theorem step_year_reqs (oracle : Oracle) (f : Filt) (st : ScraperState)
    (ysc : String × YearScope) :
    (step_year oracle f st ysc).reqs = st.reqs ++ year_reqs f ysc := by
  unfold step_year year_reqs
  by_cases hy : yearExcluded f ysc.1
  · rw [if_pos hy, if_pos hy, List.append_nil]
  · rw [if_neg hy, if_neg hy, monthfold_reqs]

theorem yearfold_reqs (oracle : Oracle) (f : Filt) :
    ∀ (l : List (String × YearScope)) (st : ScraperState),
      (l.foldl (step_year oracle f) st).reqs = st.reqs ++ combos f l := by
  intro l
  induction l with
  | nil => intro st; simp [combos]
  | cons ysc l ih =>
    intro st
    rw [List.foldl_cons, ih, step_year_reqs]
    unfold combos
    rw [List.flatMap_cons, List.append_assoc]

/-- The crawl loop issues exactly the effective combinations, in loop
order, appended to whatever requests were already logged. -/
theorem crawl_reqs (oracle : Oracle) (f : Filt) (st : ScraperState) :
    (crawl oracle f st).reqs = st.reqs ++ combos f st.formData :=
  yearfold_reqs oracle f st.formData st

theorem mem_effectiveYears (f : Filt) (fd : FormData) (z : String) :
    z ∈ effectiveYears f fd
      ↔ (∃ sc, (z, sc) ∈ fd) ∧ yearExcluded f z = false := by
  unfold effectiveYears
  rw [List.mem_filter]
  constructor
  · rintro ⟨h1, h2⟩
    rcases List.mem_map.mp h1 with ⟨x, hx, hx1⟩
    obtain ⟨a, b⟩ := x
    cases hx1
    exact ⟨⟨b, hx⟩, by simpa using h2⟩
  · rintro ⟨⟨sc, hsc⟩, h2⟩
    exact ⟨List.mem_map.mpr ⟨(z, sc), hsc, rfl⟩, by simpa using h2⟩

theorem pget_alSet_self (t : Tree) (y : String) (v : MonthMap) (n : String) :
    pget (alSet t y v) y n = (alGet v n).getD [] := by
  simp [pget, mget_alSet_self]

theorem pget_alSet_ne (t : Tree) (y w : String) (v : MonthMap) (n : String)
    (h : y ≠ w) : pget (alSet t y v) w n = pget t w n := by
  simp [pget, mget_alSet_ne _ _ _ _ h]

theorem pget_ensureYear (t : Tree) (y w n : String) :
    pget (ensureYear t y) w n = pget t w n := by
  simp [pget, mget_ensureYear]

theorem eget_setPath (t : Tree) (y m p : String) (X : List Entry) :
    eget (alSet t y (alSet (mget t y) m (alSet (pget t y m) p X))) y m p
      = some X := by
  unfold eget
  rw [pget_alSet_self, alGet_alSet_self]
  simp [alGet_alSet_self]

/-- Lazy creation at the politician level: a missing key is created with
the empty list, an existing one keeps its list. -/
theorem eget_ensurePol (t : Tree) (y m p : String) :
    eget (ensurePol t y m p) y m p = some ((eget t y m p).getD []) :=
  eget_setPath t y m p _

theorem eget_appendEntry (t : Tree) (y m p : String) (e : Entry) :
    eget (appendEntry t y m p e) y m p
      = some (((eget t y m p).getD []) ++ [e]) :=
  eget_setPath t y m p _

/-- Running the anchor loop of the politician branch appends exactly the
rows of the truthy-`href` anchors to the list at `(y, m, p)`. -/
theorem eget_anchorfold (y m p : String) :
    ∀ (l : List Anchor) (t : Tree) (l0 : List Entry),
      eget t y m p = some l0 →
      eget (l.foldl (fun t' a => extract_anchor t' y m p a) t) y m p
        = some (l0 ++ l.filterMap keptEntry) := by
  intro l
  induction l with
  | nil =>
    intro t l0 h
    simpa using h
  | cons a l ih =>
    intro t l0 h
    rw [List.foldl_cons, List.filterMap_cons]
    by_cases ha : pyTruthy a.href
    · have h1 : eget (extract_anchor t y m p a) y m p
          = some (l0 ++ [anchor_entry a]) := by
        unfold extract_anchor
        rw [if_pos ha, eget_appendEntry, h]
        simp
      rw [ih _ _ h1]
      unfold keptEntry
      rw [if_pos ha]
      simp
    · have h1 : eget (extract_anchor t y m p a) y m p = some l0 := by
        unfold extract_anchor
        rw [if_neg ha]
        exact h
      rw [ih _ _ h1]
      unfold keptEntry
      rw [if_neg ha]

/-- The politician branch of `_extract_report_urls`, characterized: the
list at `(y, m, p)` becomes the old list plus the kept rows of the page's
`td a` anchors. -/
theorem eget_extract_report_urls_pol (soup : Soup) (t : Tree) (y m p : String)
    (l0 : List Entry) (hp : p.isEmpty = false) (h : eget t y m p = some l0) :
    eget (extract_report_urls soup t y m (some p)) y m p
      = some (l0 ++ soup.tdAnchors.filterMap keptEntry) := by
  unfold extract_report_urls
  have ht : pyTruthy (some p) = true := by simp [pyTruthy, hp]
  rw [if_pos ht]
  exact eget_anchorfold y m p soup.tdAnchors t l0 h

theorem polkeys_setPath (t : Tree) (y m p : String) (X : List Entry)
    (w n z : String) :
    z ∈ alKeys (pget (alSet t y (alSet (mget t y) m (alSet (pget t y m) p X))) w n)
      ↔ z ∈ alKeys (pget t w n) ∨ (w = y ∧ n = m ∧ z = p) := by
  by_cases hw : y = w
  · subst hw
    rw [pget_alSet_self]
    by_cases hn : m = n
    · subst hn
      rw [alGet_alSet_self]
      show z ∈ alKeys (alSet (pget t y m) p X) ↔ _
      rw [mem_alKeys_alSet]
      tauto
    · rw [alGet_alSet_ne _ _ _ _ hn]
      show z ∈ alKeys (pget t y n) ↔ _
      have : ¬(y = y ∧ n = m ∧ z = p) := fun hc => hn hc.2.1.symm
      tauto
  · rw [pget_alSet_ne _ _ _ _ _ hw]
    have : ¬(w = y ∧ n = m ∧ z = p) := fun hc => hw hc.1.symm
    tauto

theorem polkeys_ensurePol (t : Tree) (y m p w n z : String) :
    z ∈ alKeys (pget (ensurePol t y m p) w n)
      ↔ z ∈ alKeys (pget t w n) ∨ (w = y ∧ n = m ∧ z = p) :=
  polkeys_setPath t y m p _ w n z

theorem polkeys_appendEntry (t : Tree) (y m p : String) (e : Entry)
    (w n z : String) :
    z ∈ alKeys (pget (appendEntry t y m p e) w n)
      ↔ z ∈ alKeys (pget t w n) ∨ (w = y ∧ n = m ∧ z = p) :=
  polkeys_setPath t y m p _ w n z

theorem polkeys_grow_extract_anchor (t : Tree) (y m p : String) (a : Anchor)
    (w n z : String) (h : z ∈ alKeys (pget t w n)) :
    z ∈ alKeys (pget (extract_anchor t y m p a) w n) := by
  unfold extract_anchor
  by_cases ha : pyTruthy a.href
  · rw [if_pos ha, polkeys_appendEntry]
    exact Or.inl h
  · rw [if_neg ha]
    exact h

theorem polkeys_grow_anchorfold (y m p : String) (l : List Anchor) (t : Tree)
    (w n z : String) (h : z ∈ alKeys (pget t w n)) :
    z ∈ alKeys (pget (l.foldl (fun t' a => extract_anchor t' y m p a) t) w n) := by
  refine foldl_pres _ (fun t' => z ∈ alKeys (pget t' w n)) ?_ l t h
  intro t' a h'
  exact polkeys_grow_extract_anchor _ _ _ _ _ _ _ _ h'

theorem polkeys_grow_extract_heading (t : Tree) (y m : String) (h : Heading)
    (w n z : String) (hz : z ∈ alKeys (pget t w n)) :
    z ∈ alKeys (pget (extract_heading t y m h) w n) := by
  unfold extract_heading
  by_cases ht : pyTruthy h.hstring
  · rw [if_pos ht]
    cases h.table with
    | none =>
      rw [polkeys_ensurePol]
      exact Or.inl hz
    | some l =>
      refine polkeys_grow_anchorfold _ _ _ _ _ _ _ _ ?_
      rw [polkeys_ensurePol]
      exact Or.inl hz
  · rw [if_neg ht]
    exact hz

/-- A truthy heading's politician name owns a key at `(y, m)` right after
its own loop iteration. -/
theorem polkeys_self_extract_heading (t : Tree) (y m : String) (h : Heading)
    (ht : pyTruthy h.hstring = true) :
    pyStr h.hstring ∈ alKeys (pget (extract_heading t y m h) y m) := by
  unfold extract_heading
  rw [if_pos ht]
  cases h.table with
  | none =>
    rw [polkeys_ensurePol]
    exact Or.inr ⟨rfl, rfl, rfl⟩
  | some l =>
    refine polkeys_grow_anchorfold _ _ _ _ _ _ _ _ ?_
    rw [polkeys_ensurePol]
    exact Or.inr ⟨rfl, rfl, rfl⟩

/-- Every truthy heading of the page ends up as a politician key after the
aggregate heading loop. -/
theorem polkeys_headingfold (y m : String) :
    ∀ (hs : List Heading) (t : Tree) (h : Heading), h ∈ hs →
      pyTruthy h.hstring = true →
      pyStr h.hstring ∈ alKeys (pget (hs.foldl (fun t' h' => extract_heading t' y m h') t) y m) := by
  intro hs
  induction hs with
  | nil =>
    intro t h hmem
    exact absurd hmem (List.not_mem_nil h)
  | cons h0 hs ih =>
    intro t h hmem ht
    rw [List.foldl_cons]
    rcases List.mem_cons.mp hmem with h1 | h1
    · subst h1
      refine foldl_pres _ (fun t' => pyStr h.hstring ∈ alKeys (pget t' y m)) ?_ hs _
        (polkeys_self_extract_heading t y m h ht)
      intro t' h' hz
      exact polkeys_grow_extract_heading _ _ _ _ _ _ _ hz
    · exact ih _ h h1 ht

theorem entsLe_refl (l : List Entry) : entsLe l l :=
  ⟨[], by simp⟩

theorem entsLe_trans {a b c : List Entry} (h1 : entsLe a b) (h2 : entsLe b c) :
    entsLe a c := by
  rcases h1 with ⟨s, rfl⟩
  rcases h2 with ⟨u, rfl⟩
  exact ⟨s ++ u, by simp⟩

theorem polLe_refl (a : PolMap) : polLe a a :=
  fun _ l h => ⟨l, h, entsLe_refl l⟩

theorem polLe_trans {a b c : PolMap} (h1 : polLe a b) (h2 : polLe b c) :
    polLe a c := by
  intro k l h
  rcases h1 k l h with ⟨l2, hb, e1⟩
  rcases h2 k l2 hb with ⟨l3, hc, e2⟩
  exact ⟨l3, hc, entsLe_trans e1 e2⟩

theorem monLe_refl (a : MonthMap) : monLe a a :=
  fun _ pm h => ⟨pm, h, polLe_refl pm⟩

theorem monLe_trans {a b c : MonthMap} (h1 : monLe a b) (h2 : monLe b c) :
    monLe a c := by
  intro k pm h
  rcases h1 k pm h with ⟨pm2, hb, e1⟩
  rcases h2 k pm2 hb with ⟨pm3, hc, e2⟩
  exact ⟨pm3, hc, polLe_trans e1 e2⟩

theorem treeLe_refl (a : Tree) : treeLe a a :=
  fun _ mm h => ⟨mm, h, monLe_refl mm⟩

theorem treeLe_trans {a b c : Tree} (h1 : treeLe a b) (h2 : treeLe b c) :
    treeLe a c := by
  intro k mm h
  rcases h1 k mm h with ⟨mm2, hb, e1⟩
  rcases h2 k mm2 hb with ⟨mm3, hc, e2⟩
  exact ⟨mm3, hc, monLe_trans e1 e2⟩

theorem polLe_alSet_append (pm : PolMap) (k : String) (l : List Entry) :
    polLe pm (alSet pm k (((alGet pm k).getD []) ++ l)) := by
  intro k' l' h
  by_cases hk : k = k'
  · subst hk
    refine ⟨((alGet pm k).getD []) ++ l, alGet_alSet_self _ _ _, ?_⟩
    rw [h]
    exact ⟨l, by simp⟩
  · refine ⟨l', ?_, entsLe_refl _⟩
    rw [alGet_alSet_ne _ _ _ _ hk]
    exact h

theorem monLe_alSet (mm : MonthMap) (k : String) (v : PolMap)
    (h : polLe ((alGet mm k).getD []) v) : monLe mm (alSet mm k v) := by
  intro k' pm hpm
  by_cases hk : k = k'
  · subst hk
    refine ⟨v, alGet_alSet_self _ _ _, ?_⟩
    rw [hpm] at h
    simpa using h
  · refine ⟨pm, ?_, polLe_refl _⟩
    rw [alGet_alSet_ne _ _ _ _ hk]
    exact hpm

theorem treeLe_alSet (t : Tree) (y : String) (v : MonthMap)
    (h : monLe (mget t y) v) : treeLe t (alSet t y v) := by
  intro k mm hmm
  by_cases hk : y = k
  · subst hk
    refine ⟨v, alGet_alSet_self _ _ _, ?_⟩
    unfold mget at h
    rw [hmm] at h
    simpa using h
  · refine ⟨mm, ?_, monLe_refl _⟩
    rw [alGet_alSet_ne _ _ _ _ hk]
    exact hmm

theorem treeLe_ensureYear (t : Tree) (y : String) : treeLe t (ensureYear t y) :=
  treeLe_alSet t y _ (monLe_refl _)

theorem treeLe_ensureMonth (t : Tree) (y m : String) :
    treeLe t (ensureMonth t y m) :=
  treeLe_alSet t y _ (monLe_alSet _ m _ (polLe_refl _))

theorem treeLe_ensurePol (t : Tree) (y m p : String) :
    treeLe t (ensurePol t y m p) := by
  refine treeLe_alSet t y _ (monLe_alSet _ m _ ?_)
  have h := polLe_alSet_append (pget t y m) p []
  simpa using h

theorem treeLe_appendEntry (t : Tree) (y m p : String) (e : Entry) :
    treeLe t (appendEntry t y m p e) :=
  treeLe_alSet t y _ (monLe_alSet _ m _ (polLe_alSet_append (pget t y m) p [e]))

theorem treeLe_extract_anchor (t : Tree) (y m p : String) (a : Anchor) :
    treeLe t (extract_anchor t y m p a) := by
  unfold extract_anchor
  by_cases ha : pyTruthy a.href
  · rw [if_pos ha]
    exact treeLe_appendEntry t y m p _
  · rw [if_neg ha]
    exact treeLe_refl t

theorem treeLe_anchorfold (y m p : String) (l : List Anchor) (t : Tree) :
    treeLe t (l.foldl (fun t' a => extract_anchor t' y m p a) t) := by
  refine foldl_pres _ (fun t' => treeLe t t') ?_ l t (treeLe_refl t)
  intro t' a h
  exact treeLe_trans h (treeLe_extract_anchor t' y m p a)

theorem treeLe_extract_heading (t : Tree) (y m : String) (h : Heading) :
    treeLe t (extract_heading t y m h) := by
  unfold extract_heading
  by_cases ht : pyTruthy h.hstring
  · rw [if_pos ht]
    cases h.table with
    | none => exact treeLe_ensurePol t y m _
    | some l =>
      exact treeLe_trans (treeLe_ensurePol t y m _) (treeLe_anchorfold y m _ l _)
  · rw [if_neg ht]
    exact treeLe_refl t

theorem treeLe_extract_report_urls (soup : Soup) (t : Tree) (y m : String)
    (pol : Option String) : treeLe t (extract_report_urls soup t y m pol) := by
  unfold extract_report_urls
  by_cases hp : pyTruthy pol
  · rw [if_pos hp]
    exact treeLe_anchorfold y m _ soup.tdAnchors t
  · rw [if_neg hp]
    refine foldl_pres _ (fun t' => treeLe t t') ?_ soup.headings t (treeLe_refl t)
    intro t' h hle
    exact treeLe_trans hle (treeLe_extract_heading t' y m h)

theorem treeLe_step_pol (oracle : Oracle) (f : Filt) (y m : String)
    (st : ScraperState) (p : String) :
    treeLe st.tree (step_pol oracle f y m st p).tree := by
  rw [step_pol_eq]
  by_cases hp : polExcluded f p
  · rw [if_pos hp]
    exact treeLe_refl _
  · rw [if_neg hp]
    exact treeLe_trans (treeLe_ensurePol st.tree y m p)
      (treeLe_extract_report_urls _ _ y m _)

theorem treeLe_step_month (oracle : Oracle) (f : Filt) (y : String)
    (pols : List String) (st : ScraperState) (m : String) :
    treeLe st.tree (step_month oracle f y pols st m).tree := by
  unfold step_month
  by_cases hm : monthExcluded f m
  · rw [if_pos hm]
    exact treeLe_refl _
  · rw [if_neg hm]
    refine foldl_pres _ (fun st' : ScraperState => treeLe st.tree st'.tree) ?_ pols _
      (treeLe_ensureMonth st.tree y m)
    intro st' p h
    exact treeLe_trans h (treeLe_step_pol oracle f y m st' p)

theorem treeLe_step_year (oracle : Oracle) (f : Filt) (st : ScraperState)
    (ysc : String × YearScope) :
    treeLe st.tree (step_year oracle f st ysc).tree := by
  unfold step_year
  by_cases hy : yearExcluded f ysc.1
  · rw [if_pos hy]
    exact treeLe_refl _
  · rw [if_neg hy]
    refine foldl_pres _ (fun st' : ScraperState => treeLe st.tree st'.tree) ?_
      ysc.2.months _ (treeLe_ensureYear st.tree ysc.1)
    intro st' m h
    exact treeLe_trans h (treeLe_step_month oracle f ysc.1 ysc.2.politicians st' m)

theorem treeLe_crawl (oracle : Oracle) (f : Filt) (st : ScraperState) :
    treeLe st.tree (crawl oracle f st).tree := by
  unfold crawl
  refine foldl_pres _ (fun st' : ScraperState => treeLe st.tree st'.tree) ?_
    st.formData st (treeLe_refl _)
  intro st' ysc h
  exact treeLe_trans h (treeLe_step_year oracle f st' ysc)

/-- C1: `get_result` raises before the crawl completes, as claimed — but it
also raises after every completed run of
`LegislativeAssemblyScraper.start_scraping`, because that method sets
`self.is_scraping_done` while `get_result` tests `self.is_scrap_done`,
which `super().start_scraping()` cleared.  The second conjunct evaluates a
completed run: `start_scraping` succeeds, leaves `is_scrap_done = False`,
and `get_result` still raises. -/
theorem claim_C1 :
    (∀ (b2 : Bool) (fd : FormData) (t : Tree) (s : Soup) (rq : List Request),
      get_result ⟨false, b2, fd, t, s, rq⟩
        = .error "Web scraping is not done yet")
  ∧ ∃ st : ScraperState, start_scraping oracleRun = .ok st
      ∧ st.is_scrap_done = false ∧ st.is_scraping_done = true
      ∧ get_result st = .error "Web scraping is not done yet" := by
  constructor
  · intro b2 fd t s rq
    rfl
  · exact ⟨⟨false, true, [("2019", ⟨[], [], 0⟩)], [("2019", [])], soupEmpty, []⟩,
      rfl, rfl, rfl, rfl⟩

/-- C2 (counterexample): with politician `A`'s request succeeding with one
report row and `B`'s request failing, the failed combination `B` does not
get an empty list: `_extract_report_urls` runs outside the `try` and reads
the stale page of `A`, so `B`'s key holds `A`'s row. -/
theorem claim_C2_counterexample :
    oracleStale (.post "2019" "1" "B") = .error "boom"
  ∧ eget (crawl oracleStale noFilt stStale).tree "2019" "1" "B"
      = some [⟨"d1", "u1"⟩]
  ∧ eget (crawl oracleStale noFilt stStale).tree "2019" "1" "A"
      = some [⟨"d1", "u1"⟩] :=
  ⟨rfl, by decide, by decide⟩

/-- C2 (amended): a failed fetch is caught at the per-combination boundary
and the combination's key is still created, and the crawl loop never
aborts (a well-typed call raises nothing) — but the extraction then runs
against the most recently parsed page (`self.soup` is unchanged by the
failure), so the failed key records that stale page's rows rather than
being necessarily empty. -/
theorem claim_C2 :
    (∀ (oracle : Oracle) (f : Filt) (y m : String) (st : ScraperState)
        (p e : String),
      polExcluded f p = false → oracle (.post y m p) = .error e →
      step_pol oracle f y m st p
        = { st with
            tree := extract_report_urls st.soup (ensurePol st.tree y m p) y m
              (some p),
            reqs := st.reqs ++ [Request.post y m p] })
  ∧ (∀ (oracle : Oracle) (ya ma pa : PyArg) (st : ScraperState),
      ya.isOther = false → ma.isOther = false → pa.isOther = false →
      (query_indemnity_costs oracle ya ma pa st).2 = Option.none) := by
  constructor
  · intro oracle f y m st p e hp he
    rw [step_pol_eq, if_neg (by simp [hp])]
    unfold soupAfter
    rw [he]
  · intro oracle ya ma pa st h1 h2 h3
    unfold query_indemnity_costs
    rw [if_neg (by simp [h1]), if_neg (by simp [h2]), if_neg (by simp [h3])]

theorem claim_C2_witness :
    step_pol oracleStale noFilt "2019" "1" stStale "B"
      = { stStale with
          tree := extract_report_urls stStale.soup
            (ensurePol stStale.tree "2019" "1" "B") "2019" "1" (some "B"),
          reqs := stStale.reqs ++ [Request.post "2019" "1" "B"] }
  ∧ (query_indemnity_costs oracleOk .none .none .none stScenario).2
      = Option.none :=
  ⟨claim_C2.1 oracleStale noFilt "2019" "1" stStale "B" "boom" rfl rfl,
   claim_C2.2 oracleOk .none .none .none stScenario rfl rfl rfl⟩

/-- C3: starting from an empty result tree, the year keys of the crawled
tree are exactly `effectiveYears(D, F)`, and the month keys under a year
are exactly that year's effective months — a requested (year, month) key
exists even when its politician map stayed empty, and no key outside the
effective domain is ever created. -/
theorem claim_C3 (oracle : Oracle) (f : Filt) (fd : FormData) (b1 b2 : Bool)
    (s : Soup) (rq : List Request) (y m : String) :
    (y ∈ alKeys (crawl oracle f ⟨b1, b2, fd, [], s, rq⟩).tree
      ↔ y ∈ effectiveYears f fd)
  ∧ (m ∈ alKeys (mget (crawl oracle f ⟨b1, b2, fd, [], s, rq⟩).tree y)
      ↔ ∃ sc, (y, sc) ∈ fd ∧ yearExcluded f y = false ∧ m ∈ sc.months
          ∧ monthExcluded f m = false) := by
  constructor
  · rw [mem_effectiveYears]
    unfold crawl
    rw [keys_yearfold_char]
    simp [alKeys]
  · unfold crawl
    rw [monthkeys_yearfold_char]
    simp [mget, alGet, alKeys]

/-- C4: the result tree grows monotonically.  Each recording operation of
the crawl — lazy creation of a year, month or politician key and the
appends of `_extract_report_urls` — extends the tree in the `treeLe`
order (no key removed, every existing list only appended to), the lazy
politician creation yields the old list or `[]`, the append extends the
path's list by exactly its entry, and a whole crawl extends the starting
tree. -/
theorem claim_C4 :
    (∀ (t : Tree) (y : String), treeLe t (ensureYear t y))
  ∧ (∀ (t : Tree) (y m : String), treeLe t (ensureMonth t y m))
  ∧ (∀ (t : Tree) (y m p : String), treeLe t (ensurePol t y m p)
      ∧ eget (ensurePol t y m p) y m p = some ((eget t y m p).getD []))
  ∧ (∀ (t : Tree) (y m p : String) (e : Entry),
      treeLe t (appendEntry t y m p e)
      ∧ eget (appendEntry t y m p e) y m p
          = some (((eget t y m p).getD []) ++ [e]))
  ∧ (∀ (soup : Soup) (t : Tree) (y m : String) (pol : Option String),
      treeLe t (extract_report_urls soup t y m pol))
  ∧ (∀ (oracle : Oracle) (f : Filt) (st : ScraperState),
      treeLe st.tree (crawl oracle f st).tree) :=
  ⟨treeLe_ensureYear,
   treeLe_ensureMonth,
   fun t y m p => ⟨treeLe_ensurePol t y m p, eget_ensurePol t y m p⟩,
   fun t y m p e => ⟨treeLe_appendEntry t y m p e, eget_appendEntry t y m p e⟩,
   treeLe_extract_report_urls,
   treeLe_crawl⟩

/-- C5 (counterexample): with a landing page offering year `2019` and the
per-year scope POST failing, `_extract_form_data` raises — the failure
propagates out of discovery instead of defaulting that year's scope to
empty sets. -/
theorem claim_C5_counterexample :
    extract_form_data oracleScopeFail = .error "boom" := rfl

/-- C5 (amended): a failed per-year scope request propagates out of
`_extract_data_from_form` (there is no `try` around it), aborting
discovery; no empty-scope default is applied and the remaining years are
not visited. -/
theorem claim_C5 (oracle : Oracle) (s : Soup) (y : String) (sc : YearScope)
    (rest : FormData) (e : String)
    (he : oracle (.post y "" "") = .error e) :
    extract_data_from_form oracle s ((y, sc) :: rest) = .error e := by
  unfold extract_data_from_form
  rw [List.map_cons, List.foldl_cons]
  have h1 : form_step oracle (.ok (s, (y, sc) :: rest)) y = .error e := by
    unfold form_step
    rw [he]
  rw [h1]
  refine foldl_pres (form_step oracle)
    (fun acc : Except String (Soup × FormData) => acc = .error e) ?_
    (rest.map Prod.fst) _ rfl
  intro acc x hacc
  rw [hacc]
  rfl

theorem claim_C5_witness :
    extract_data_from_form oracleScopeFail soupLanding [("2019", ⟨[], [], 0⟩)]
      = .error "boom" :=
  claim_C5 oracleScopeFail soupLanding "2019" ⟨[], [], 0⟩ [] "boom" rfl

/-- C6: the `years` and `months` filters are normalized with `str(...)`
before membership is tested, so an int filter behaves exactly like its
string form: `years=[2019]` and `years=["2019"]` produce identical
results, and the numeric filter `[2019]` selects the domain year string
`"2019"`. -/
theorem claim_C6 :
    (∀ (oracle : Oracle) (ma pa : PyArg) (st : ScraperState),
      query_indemnity_costs oracle (.list [.int 2019]) ma pa st
        = query_indemnity_costs oracle (.list [.str "2019"]) ma pa st)
  ∧ (∀ (oracle : Oracle) (ya pa : PyArg) (st : ScraperState),
      query_indemnity_costs oracle ya (.list [.int 2]) pa st
        = query_indemnity_costs oracle ya (.list [.str "2"]) pa st)
  ∧ PyVal.toStr (.int 2019) = "2019"
  ∧ yearExcluded (filtOfArgs (.list [.int 2019]) .none .none) "2019" = false := by
  exact ⟨fun _ _ _ _ => rfl, fun _ _ _ _ => rfl, rfl, rfl⟩

/-- C7: in the per-politician extraction, an anchor whose `href` is
missing or empty contributes nothing (silently dropped), while an anchor
with a non-empty `href` and empty text is kept with an empty description:
the extracted list is the old list plus exactly the kept rows. -/
theorem claim_C7 :
    (∀ (soup : Soup) (t : Tree) (y m p : String) (l0 : List Entry),
      p.isEmpty = false → eget t y m p = some l0 →
      eget (extract_report_urls soup t y m (some p)) y m p
        = some (l0 ++ soup.tdAnchors.filterMap keptEntry))
  ∧ (∀ d : Option String, keptEntry ⟨Option.none, d⟩ = Option.none)
  ∧ (∀ d : Option String, keptEntry ⟨some "", d⟩ = Option.none)
  ∧ (∀ u : String, u.isEmpty = false →
      keptEntry ⟨some u, some ""⟩ = some ⟨"", u⟩) := by
  refine ⟨?_, fun d => rfl, fun d => rfl, ?_⟩
  · intro soup t y m p l0 hp h
    exact eget_extract_report_urls_pol soup t y m p l0 hp h
  · intro u hu
    have ht : pyTruthy (some u) = true := by simp [pyTruthy, hu]
    unfold keptEntry
    rw [if_pos ht]
    show some (anchor_entry ⟨some u, some ""⟩) = _
    unfold anchor_entry
    rfl

theorem claim_C7_witness :
    eget (extract_report_urls soupDropKeep [("y", [("m", [("P", [])])])]
        "y" "m" (some "P")) "y" "m" "P"
      = some [⟨"", "u"⟩, ⟨"None", "u2"⟩]
  ∧ keptEntry ⟨some "u", some ""⟩ = some ⟨"", "u"⟩ :=
  ⟨(claim_C7.1 soupDropKeep [("y", [("m", [("P", [])])])] "y" "m" "P" []
      rfl rfl).trans (by decide),
   claim_C7.2.2.2 "u" rfl⟩

/-- C8 (counterexample): the aggregate branch of `_extract_report_urls`
consults no politician filter: on a page announcing politicians `A` and
`B`, politician `B` is recorded with its rows even though the filter list
`["A"]` excludes `B`. -/
theorem claim_C8_counterexample :
    polExcluded ⟨Option.none, Option.none, some [PyVal.str "A"]⟩ "B" = true
  ∧ eget (extract_report_urls soupTwoPols treeYM "2019" "1" Option.none)
      "2019" "1" "B" = some [⟨"d2", "u2"⟩]
  ∧ "B" ∈ alKeys (pget (extract_report_urls soupTwoPols treeYM "2019" "1"
      Option.none) "2019" "1") := by
  refine ⟨rfl, by decide, ?_⟩
  decide

/-- C8 (amended): in the aggregate branch the politician filter is not
applied to the response at all — every detected politician with a truthy
name heading gets a key in the result tree, whether or not any caller
filter would exclude them. -/
theorem claim_C8 (soup : Soup) (t : Tree) (y m : String) (h : Heading)
    (hmem : h ∈ soup.headings) (ht : pyTruthy h.hstring = true) :
    pyStr h.hstring
      ∈ alKeys (pget (extract_report_urls soup t y m Option.none) y m) := by
  unfold extract_report_urls
  rw [if_neg (by simp [pyTruthy])]
  exact polkeys_headingfold y m soup.headings t h hmem ht

theorem claim_C8_witness :
    pyStr (some "B") ∈ alKeys (pget (extract_report_urls soupTwoPols treeYM
      "2019" "1" Option.none) "2019" "1") :=
  claim_C8 soupTwoPols treeYM "2019" "1"
    ⟨some "B", some [⟨some "u2", some "d2"⟩]⟩ (by decide) rfl

/-- C9: the crawl issues exactly one request per effective
(year, month, politician) combination, years outermost, then months, then
politicians, each in domain order (`combos`); in the scenario — domain
years `2019`, `2020`, scope of `2019` = months `1`, `2` and politicians
`A`, `B`, filter `years=[2019], months=[1]`, per-politician mode —
exactly the two requests for `A` and `B` at `2019/1` are issued and
`tree["2019"]["1"]` has exactly the keys `A` and `B`. -/
theorem claim_C9 :
    (∀ (oracle : Oracle) (f : Filt) (st : ScraperState),
      (crawl oracle f st).reqs = st.reqs ++ combos f st.formData)
  ∧ (query_indemnity_costs oracleOk (.list [.int 2019]) (.list [.int 1])
      .none stScenario).1.reqs
      = [Request.post "2019" "1" "A", Request.post "2019" "1" "B"]
  ∧ alKeys (pget (query_indemnity_costs oracleOk (.list [.int 2019])
      (.list [.int 1]) .none stScenario).1.tree "2019" "1") = ["A", "B"] :=
  ⟨crawl_reqs, rfl, rfl⟩

/-- C10: a filter argument that is neither `None` nor a list/tuple makes
`_query_indemnity_costs` raise a `TypeError` before anything else: the
returned state is the input state — no request issued, result tree
untouched — and an error is reported. -/
theorem claim_C10 (oracle : Oracle) (ya ma pa : PyArg) (st : ScraperState)
    (h : ya.isOther = true ∨ ma.isOther = true ∨ pa.isOther = true) :
    (query_indemnity_costs oracle ya ma pa st).1 = st
  ∧ (query_indemnity_costs oracle ya ma pa st).1.reqs = st.reqs
  ∧ (query_indemnity_costs oracle ya ma pa st).1.tree = st.tree
  ∧ ∃ e, (query_indemnity_costs oracle ya ma pa st).2 = some e := by
  unfold query_indemnity_costs
  by_cases h1 : ya.isOther = true
  · rw [if_pos h1]
    exact ⟨rfl, rfl, rfl, _, rfl⟩
  · rw [if_neg h1]
    by_cases h2 : ma.isOther = true
    · rw [if_pos h2]
      exact ⟨rfl, rfl, rfl, _, rfl⟩
    · rw [if_neg h2]
      have h3 : pa.isOther = true := by tauto
      rw [if_pos h3]
      exact ⟨rfl, rfl, rfl, _, rfl⟩

theorem claim_C10_witness :
    (query_indemnity_costs oracleOk (.other "2019") .none .none stScenario).1
      = stScenario
  ∧ ∃ e, (query_indemnity_costs oracleOk (.other "2019") .none .none
      stScenario).2 = some e :=
  ⟨(claim_C10 oracleOk (.other "2019") .none .none stScenario (Or.inl rfl)).1,
   (claim_C10 oracleOk (.other "2019") .none .none stScenario (Or.inl rfl)).2.2.2⟩

end AlTo
